import Mathlib

set_option maxRecDepth 1000000

/-!
Verification development for the jetris falling-block game
(src/main.rs).  The grid, the falling block, and the session state
machine are embedded shallowly: the `Array2D<i16>` cell array becomes a
function `Int → Int → Int`, mutation becomes explicit state passing, and
the two time-based conditions of `GameState::update` (the 10 ms update
throttle and the 300 ms gravity interval) together with the random block
type of the spawner become explicit parameters.  Rendering, audio and
text construction are out of scope (per the spec they are external
collaborators and touch no game state used here).
-/

namespace Jetris

/-- Constant `START_X` of main.rs. -/
def START_X : Int := 4

/-- Constant `START_Y` of main.rs. -/
def START_Y : Int := 2

/-- Constant `TILEMAP_SIZE_X` of main.rs. -/
def TILEMAP_SIZE_X : Int := 12

/-- Constant `TILEMAP_SIZE_Y` of main.rs. -/
def TILEMAP_SIZE_Y : Int := 30

/-- The tile map of main.rs (struct `TileMap`): its size and the 2-d cell
array.  The `i16` cells become `Int`; the sprite batch and tile set carry
no game state and are dropped. -/
structure TileMap where
  sizeX : Int
  sizeY : Int
  cells : Int → Int → Int

/-- `TileMap::set_cell`: unchecked write of one cell. -/
def set_cell (g : TileMap) (x y tile : Int) : TileMap :=
  { g with cells := fun a b => if a = x ∧ b = y then tile else g.cells a b }

/-- `TileMap::_get_cell` (main.rs lines 138-145): out of bounds reads
return the constant `1`, in-bounds reads return the stored cell. -/
def _get_cell (g : TileMap) (x y : Int) : Int :=
  if x < 0 ∨ x ≥ g.sizeX ∨ y < 0 ∨ y ≥ g.sizeY then 1 else g.cells x y

/-- The list of integers `lo, lo+1, ..., hi-1`, embedding a Rust range
`lo..hi` used as a loop. -/
def intRange (lo hi : Int) : List Int :=
  (List.range (hi - lo).toNat).map (fun i : Nat => lo + (i : Int))

/-- The interior columns `1..size.x-1` iterated by the row loops of
`remove_row`, `check_full_rows` and `clear_center`. -/
def interiorXs (g : TileMap) : List Int := intRange 1 (g.sizeX - 1)

/-- The body of the inner column loop of `remove_row`'s shift phase
(main.rs lines 218-222): read the cell at `(x, y2)` and, under the
source's (always true) guard `y2 < self.size.y`, write it to
`(x, y2+1)`. -/
def copyCellStep (y2 : Int) (acc2 : TileMap) (x : Int) : TileMap :=
  if y2 < acc2.sizeY then set_cell acc2 x (y2 + 1) (_get_cell acc2 x y2) else acc2

/-- The body of the outer row loop of `remove_row`'s shift phase
(main.rs lines 217-223): copy row `y2` into row `y2+1` over the interior
columns. -/
def copyRowStep (acc : TileMap) (y2 : Int) : TileMap :=
  (interiorXs acc).foldl (copyCellStep y2) acc

/-- `TileMap::remove_row` (main.rs lines 209-225): zero the interior of
row `y`, then for `y2` from `y-1` down to `0` copy row `y2` into row
`y2+1` (interior columns only). -/
def remove_row (g : TileMap) (y : Int) : TileMap :=
  let g1 := (interiorXs g).foldl (fun acc x => set_cell acc x y 0) g
  ((intRange 0 y).reverse).foldl copyRowStep g1

/-- The full-row test inside `check_full_rows` (main.rs lines 230-235):
a flag starts `true` and is cleared when some interior cell of row `y`
is `< 1`. -/
def rowIsFull (g : TileMap) (y : Int) : Bool :=
  (interiorXs g).foldl (fun b x => if _get_cell g x y < 1 then false else b) true

/-- The row scan `for y in 0..self.size.y-1` of `check_full_rows`: every
row except the bottom (wall) row. -/
def scanRows (g : TileMap) : List Int := intRange 0 (g.sizeY - 1)

/-- A row is full, phrased on the stored cells (spec: every interior
cell in columns `1..W-2` non-empty). -/
def FullP (g : TileMap) (r : Int) : Prop :=
  ∀ x, 1 ≤ x → x < g.sizeX - 1 → 1 ≤ g.cells x r

/-- The loop body of `TileMap::check_full_rows` (main.rs lines 229-240):
scan the rows in `ys`; on a full row remove it, run the whole scan again
(`rec`, the recursive call of the source), and continue the loop with the
returned grid, overwriting `added_points` with one plus the recursive
count, exactly as the source assignment `added_points = 1 +
self.check_full_rows()` does. -/
def cfrLoop (rec : TileMap → TileMap × Nat) :
    TileMap → List Int → Nat → TileMap × Nat
  | g, [], added => (g, added)
  | g, y :: ys, added =>
    if rowIsFull g y then
      let p := rec (remove_row g y)
      cfrLoop rec p.1 ys (1 + p.2)
    else cfrLoop rec g ys added

/-- `TileMap::check_full_rows` with explicit recursion depth.  The source
recursion terminates because whenever it recurses, every row before the
removed one has already been found not full, so the removal strictly
decreases the number of non-zero interior cells; hence the depth is
bounded by the cell count and `check_full_rows` below supplies
`size.x * size.y + 1` as fuel, which the source executions never
exhaust. -/
def cfrFuel : Nat → TileMap → TileMap × Nat
  | 0, g => (g, 0)
  | fuel + 1, g => cfrLoop (cfrFuel fuel) g (scanRows g) 0

/-- `TileMap::check_full_rows` (main.rs lines 227-242), returning the
final grid and the cleared-row count. -/
def check_full_rows (g : TileMap) : TileMap × Nat :=
  cfrFuel (g.sizeX.toNat * g.sizeY.toNat + 1) g

/-- `TileMap::clear_center` (main.rs lines 164-173): zero every interior
column of every row except the bottom one. -/
def clear_center (g : TileMap) : TileMap :=
  (intRange 1 (g.sizeX - 1)).foldl
    (fun acc x =>
      (intRange 0 (acc.sizeY - 1)).foldl (fun acc2 y => set_cell acc2 x y 0) acc)
    g

/-- Enum `Rotation` of main.rs. -/
inductive Rotation
  | Cw0
  | Cw90
  | Cw180
  | Cw270
deriving DecidableEq

/-- `Rotation::next` (main.rs lines 44-51). -/
def Rotation.next : Rotation → Rotation
  | .Cw0 => .Cw90
  | .Cw90 => .Cw180
  | .Cw180 => .Cw270
  | .Cw270 => .Cw0

/-- Struct `Block` of main.rs.  Positions are `(x, y)` pairs of `Int`
(the source `Vector2` of `i16`); the 5x5 `u8` shape array becomes a
function. -/
structure Block where
  position : Int × Int
  previous_position : Int × Int
  block_type : Nat
  shape : Nat → Nat → Nat
  rotation : Rotation
  previous_rotation : Rotation
  down : Bool
  moving_down : Bool

/-- The seven flat 5x5 shape vectors of `Block::new` (main.rs lines
260-317), in source order O, I, T, S, Z, L, J. -/
def shapes : List (List Nat) :=
  [ [0,0,0,0,0,
     0,0,0,0,0,
     0,0,1,1,0,
     0,0,1,1,0,
     0,0,0,0,0],
    [0,0,0,0,0,
     0,0,1,0,0,
     0,0,1,0,0,
     0,0,1,0,0,
     0,0,1,0,0],
    [0,0,0,0,0,
     0,0,0,0,0,
     0,1,1,1,0,
     0,0,1,0,0,
     0,0,0,0,0],
    [0,0,0,0,0,
     0,0,0,1,0,
     0,0,1,1,0,
     0,0,1,0,0,
     0,0,0,0,0],
    [0,0,0,0,0,
     0,0,1,0,0,
     0,0,1,1,0,
     0,0,0,1,0,
     0,0,0,0,0],
    [0,0,0,0,0,
     0,0,1,0,0,
     0,0,1,0,0,
     0,0,1,1,0,
     0,0,0,0,0],
    [0,0,0,0,0,
     0,0,1,0,0,
     0,0,1,0,0,
     0,1,1,0,0,
     0,0,0,0,0] ]

/-- The stored shape array of `Block::new`: `Array2D::from_column_major`
of a flat 5x5 vector makes `shape[(x, y)]` the flat element `y*5 + x`. -/
def shapeFromList (v : List Nat) (x y : Nat) : Nat := v.getD (y * 5 + x) 0

/-- `Block::new` (main.rs lines 258-331). -/
def Block.new (position : Int × Int) (block_type : Nat) : Block :=
  { position := position
    previous_position := position
    block_type := block_type
    shape := shapeFromList (shapes.getD block_type [])
    rotation := .Cw0
    previous_rotation := .Cw0
    down := false
    moving_down := false }

/-- `Block::get_cell` (main.rs lines 333-348): sample the shape through
the rotation transform of the current (or previous) rotation. -/
def get_cell (b : Block) (x y : Nat) (previous : Bool) : Bool :=
  let r := if previous then b.previous_rotation else b.rotation
  let c :=
    match r with
    | .Cw0 => b.shape x y
    | .Cw90 => b.shape y (4 - x)
    | .Cw180 => b.shape (4 - x) (4 - y)
    | .Cw270 => b.shape (4 - y) x
  decide (0 < c)

/-- The local 5x5 cell enumeration `for x in 0..5 { for y in 0..5 }`
shared by the marking, deletion and collision loops of `Block`. -/
def localCells : List (Nat × Nat) :=
  ((List.range 5).map (fun x => (List.range 5).map (fun y => (x, y)))).flatten

/-- `Block::_mark_to_tile_map` (main.rs lines 350-359). -/
def _mark_to_tile_map (b : Block) (g : TileMap) : TileMap :=
  localCells.foldl
    (fun acc p =>
      if get_cell b p.1 p.2 false then
        set_cell acc (b.position.1 + (p.1 : Int)) (b.position.2 + (p.2 : Int))
          ((b.block_type : Int) + 1)
      else acc)
    g

/-- `Block::_delete_from_tile_map` (main.rs lines 361-370): zero the
shape cells at the previous position, sampled at the current rotation. -/
def _delete_from_tile_map (b : Block) (g : TileMap) : TileMap :=
  localCells.foldl
    (fun acc p =>
      if get_cell b p.1 p.2 false then
        set_cell acc (b.previous_position.1 + (p.1 : Int))
          (b.previous_position.2 + (p.2 : Int)) 0
      else acc)
    g

/-- `Block::move_down` (main.rs lines 372-376). -/
def move_down (b : Block) (g : TileMap) : Block :=
  if b.position.2 < g.sizeY - 1 then
    { b with position := (b.position.1, b.position.2 + 1) }
  else b

/-- The loop body of `Block::test_position` (main.rs lines 383-396): at
a shape cell whose map cell is occupied, set `down` when moving strictly
downward with unchanged `x`, then roll the position back to
`previous_position`. -/
def tpStep (g : TileMap) (acc : Block) (p : Nat × Nat) : Block :=
  if get_cell acc p.1 p.2 false then
    if 0 < _get_cell g (acc.position.1 + (p.1 : Int)) (acc.position.2 + (p.2 : Int)) then
      let acc1 :=
        if acc.previous_position.2 < acc.position.2 then
          if acc.position.1 = acc.previous_position.1 then { acc with down := true }
          else acc
        else acc
      { acc1 with position := acc1.previous_position }
    else acc
  else acc

/-- `Block::test_position` (main.rs lines 382-397); the scan continues
after a rollback, as in the source. -/
def test_position (b : Block) (g : TileMap) : Block :=
  localCells.foldl (tpStep g) b

/-- The loop body of `Block::test_rotation` (main.rs lines 400-410): on
an occupied cell of the footprint at the current rotation, roll the
rotation back to `previous_rotation`. -/
def trStep (g : TileMap) (acc : Block) (p : Nat × Nat) : Block :=
  if get_cell acc p.1 p.2 false then
    if 0 < _get_cell g (acc.position.1 + (p.1 : Int)) (acc.position.2 + (p.2 : Int)) then
      { acc with rotation := acc.previous_rotation }
    else acc
  else acc

/-- `Block::test_rotation` (main.rs lines 399-411); the scan continues
after a rollback, as in the source. -/
def test_rotation (b : Block) (g : TileMap) : Block :=
  localCells.foldl (trStep g) b

/-- The collision concept of `test_position`/`test_rotation` (spec 4.2):
the block at its current position and rotation overlaps some non-empty
map cell. -/
def overlaps (g : TileMap) (b : Block) : Bool :=
  localCells.any fun p =>
    get_cell b p.1 p.2 false &&
      decide (0 < _get_cell g (b.position.1 + (p.1 : Int)) (b.position.2 + (p.2 : Int)))

/-- Enum `GameStates` of main.rs. -/
inductive GameStates
  | GameOver
  | GameOn
  | Pause
  | Restart
deriving DecidableEq

/-- The keys handled by `GameState::key_down_event`; `Other` stands for
every other key code. -/
inductive KeyCode
  | Left
  | Right
  | Down
  | Up
  | Space
  | P
  | M
  | Y
  | N
  | Q
  | Escape
  | Other
deriving DecidableEq

/-- Struct `GameState` of main.rs restricted to game state: the tile
map, the active block, the state machine, the mute flag and the score.
The two `Instant` timers become the Boolean parameters of `update`; the
texts, sounds and `_gameover` (written but never read) are dropped.
`continuing` models the host flag `_ctx.continuing` written by
`key_down_event`. -/
structure GameState where
  tile_map : TileMap
  block : Block
  game_state : GameStates
  music_on : Bool
  points : Nat
  continuing : Bool

/-- The tile map built by `GameState::new` (main.rs lines 475-486): a
12x30 zero-filled array, then the bottom wall `for i in 0..=10` at row
`TILEMAP_SIZE_Y-1`, then the left and right wall columns, all with tile
id 8. -/
def initTileMap : TileMap :=
  let g0 : TileMap := { sizeX := TILEMAP_SIZE_X, sizeY := TILEMAP_SIZE_Y, cells := fun _ _ => 0 }
  let g1 := (intRange 0 11).foldl (fun acc i => set_cell acc i (TILEMAP_SIZE_Y - 1) 8) g0
  (intRange 0 TILEMAP_SIZE_Y).foldl
    (fun acc i => set_cell (set_cell acc 0 i 8) (TILEMAP_SIZE_X - 1) i 8) g1

/-- `GameState::new` (main.rs lines 441-537): the initial session, with
a type-1 block at the spawn coordinate and state `GameOn`. -/
def GameState.new : GameState :=
  { tile_map := initTileMap
    block := Block.new (START_X, START_Y) 1
    game_state := .GameOn
    music_on := true
    points := 0
    continuing := true }

/-- The gravity step of `update` (main.rs lines 562-567): when the
gravity interval has elapsed and the block is not down, request a
downward move. -/
def gravityBlock (gravityDue : Bool) (b : Block) : Block :=
  if gravityDue && !b.down then { b with moving_down := true } else b

/-- The map after the erase step of `update` (main.rs line 568). -/
def erasedMap (gravityDue : Bool) (s : GameState) : TileMap :=
  _delete_from_tile_map (gravityBlock gravityDue s.block) s.tile_map

/-- The block after the move-down and collision steps of `update`
(main.rs lines 569-573). -/
def resolvedBlock (gravityDue : Bool) (s : GameState) : Block :=
  let b0 := gravityBlock gravityDue s.block
  let m1 := erasedMap gravityDue s
  let b1 := if b0.moving_down then { (move_down b0 m1) with moving_down := false } else b0
  test_position b1 m1

/-- The map after the re-stamp step of `update` (main.rs line 574). -/
def markedMap (gravityDue : Bool) (s : GameState) : TileMap :=
  _mark_to_tile_map (resolvedBlock gravityDue s) (erasedMap gravityDue s)

/-- The `GameOn` arm of `GameState::update` (main.rs lines 561-593):
gravity request, erase, fall, collision resolution, re-stamp, and on a
landing the game-over check, the respawn, the row clear and the score
update.  The FPS text, sprite batches and the row-clear sound are
dropped. -/
def updateGameOnBranch (gravityDue : Bool) (newType : Nat) (s : GameState) : GameState :=
  if (resolvedBlock gravityDue s).down then
    { s with
      game_state := if (resolvedBlock gravityDue s).position.2 < 5 then GameStates.GameOver
        else s.game_state
      block := Block.new (START_X, START_Y) newType
      tile_map := (check_full_rows (markedMap gravityDue s)).1
      points := if 0 < (check_full_rows (markedMap gravityDue s)).2
        then s.points + (check_full_rows (markedMap gravityDue s)).2 else s.points }
  else
    { s with
      block := { resolvedBlock gravityDue s with
        previous_position := (resolvedBlock gravityDue s).position }
      tile_map := markedMap gravityDue s }

/-- `GameState::update` (main.rs lines 545-602), continued: the state
dispatch.  `tenMsElapsed` stands for the update throttle, `gravityDue`
for the gravity interval, `newType` for the random replacement type. -/
def update (tenMsElapsed gravityDue : Bool) (newType : Nat) (s : GameState) : GameState :=
  if !tenMsElapsed then s
  else
    match s.game_state with
    | .GameOver | .Pause => s
    | .Restart =>
      { s with points := 0, tile_map := clear_center s.tile_map, game_state := .GameOn }
    | .GameOn => updateGameOnBranch gravityDue newType s

/-- `GameState::key_down_event` (main.rs lines 656-718): set the host
`continuing` flag, handle the movement keys when the block is not down,
then the pause and mute toggles, then the game-over confirmation keys
(read on the state as already modified by the pause toggle, as in the
source's statement order). -/
def key_down_event (s : GameState) (keycode : KeyCode) : GameState :=
  let s :=
    { s with
      continuing :=
        match keycode with
        | .Q | .Escape => false
        | _ => true }
  let s :=
    if !s.block.down then
      match keycode with
      | .Left =>
        let m := _delete_from_tile_map s.block s.tile_map
        let b := { s.block with position := (s.block.position.1 - 1, s.block.position.2) }
        { s with tile_map := m, block := test_position b m }
      | .Right =>
        let m := _delete_from_tile_map s.block s.tile_map
        let b := { s.block with position := (s.block.position.1 + 1, s.block.position.2) }
        { s with tile_map := m, block := test_position b m }
      | .Down => { s with block := { s.block with moving_down := true } }
      | .Up | .Space =>
        let m := _delete_from_tile_map s.block s.tile_map
        let b := { s.block with previous_rotation := s.block.rotation }
        let b := { b with rotation := b.rotation.next }
        { s with tile_map := m, block := test_rotation b m }
      | _ => s
    else s
  let s :=
    match keycode with
    | .P =>
      { s with
        game_state :=
          match s.game_state with
          | .GameOn => .Pause
          | _ => .GameOn }
    | .M => { s with music_on := !s.music_on }
    | _ => s
  match s.game_state with
  | .GameOver =>
    match keycode with
    | .N => { s with continuing := false }
    | .Y => { s with game_state := .Restart }
    | _ => s
  | _ => s

/-- A 12x30 grid with the wall ring and exactly two full interior rows,
5 and 8 (an arbitrary stack colour 3 fills them). -/
def witnessGridC1 : TileMap :=
  { sizeX := 12
    sizeY := 30
    cells := fun x y =>
      if (y = 5 ∨ y = 8) ∧ 1 ≤ x ∧ x ≤ 10 then 3
      else if x = 0 ∨ x = 11 ∨ y = 29 then 8
      else 0 }

/-- A session one gravity step before its I-piece rests on the floor:
the piece sits at `(4, 24)`, so its bar occupies rows 25-28 and the next
downward step collides with the bottom wall row 29. -/
def landingState : GameState :=
  { GameState.new with block := Block.new (4, 24) 1 }

/-- The wall-erase run, step 1: one update from the initial session (the
piece is stamped at the spawn and `previous_position` is recorded). -/
def eraseRun1 : GameState := update true false 0 GameState.new

/-- The wall-erase run, step 2: four Left presses move the piece so that
its vertical bar stands in column 2, next to the left wall. -/
def eraseRun2 : GameState :=
  key_down_event (key_down_event (key_down_event (key_down_event eraseRun1 .Left) .Left) .Left)
    .Left

/-- The wall-erase run, step 3: an update commits the moved piece, so
`previous_position` becomes `(0, 2)`. -/
def eraseRun3 : GameState := update true false 0 eraseRun2

/-- The wall-erase run, step 4: one Right press then a rotation; the
rotation is validated at the new position `(1, 2)` only. -/
def eraseRun4 : GameState := key_down_event (key_down_event eraseRun3 .Right) .Up

/-- The wall-erase run, step 5: the next update erases the rotated
footprint at the stale `previous_position` `(0, 2)`, writing 0 over the
wall cell `(0, 4)`. -/
def eraseRun5 : GameState := update true false 0 eraseRun4

/-- Membership in an embedded integer range. -/
theorem mem_intRange {lo hi a : Int} : a ∈ intRange lo hi ↔ lo ≤ a ∧ a < hi := by
  simp only [intRange, List.mem_map, List.mem_range]
  constructor
  · rintro ⟨i, hilt, rfl⟩
    omega
  · rintro ⟨hle, hlt⟩
    exact ⟨(a - lo).toNat, by omega, by omega⟩

/-- Splitting an integer range at an interior point. -/
theorem intRange_append (lo m hi : Int) (h1 : lo ≤ m) (h2 : m ≤ hi) :
    intRange lo hi = intRange lo m ++ intRange m hi := by
  unfold intRange
  have hn : (hi - lo).toNat = (m - lo).toNat + (hi - m).toNat := by omega
  rw [hn, List.range_add, List.map_append, List.map_map]
  congr 1
  apply List.map_congr_left
  intro i _
  simp only [Function.comp_apply]
  omega

/-- Peeling the first element of a nonempty integer range. -/
theorem intRange_cons (m hi : Int) (h : m < hi) :
    intRange m hi = m :: intRange (m + 1) hi := by
  unfold intRange
  have hn : (hi - m).toNat = (hi - (m + 1)).toNat + 1 := by omega
  rw [hn, List.range_succ_eq_map, List.map_cons, List.map_map]
  congr 1
  · omega
  · apply List.map_congr_left
    intro i _
    simp only [Function.comp_apply]
    omega

theorem set_cell_cells (g : TileMap) (x y v a b : Int) :
    (set_cell g x y v).cells a b = if a = x ∧ b = y then v else g.cells a b := rfl

theorem set_cell_sizeX (g : TileMap) (x y v : Int) : (set_cell g x y v).sizeX = g.sizeX := rfl

theorem set_cell_sizeY (g : TileMap) (x y v : Int) : (set_cell g x y v).sizeY = g.sizeY := rfl

/-- A fold over a list preserves any invariant preserved by its step. -/
theorem foldl_preserve {α β : Type} (P : α → Prop) (f : α → β → α)
    (hf : ∀ a b, P a → P (f a b)) :
    ∀ (l : List β) (a : α), P a → P (l.foldl f a) := by
  intro l
  induction l with
  | nil => intro a ha; exact ha
  | cons x xs ih => intro a ha; exact ih _ (hf a x ha)

theorem _get_cell_congr (g h : TileMap) (a b : Int)
    (hx : h.sizeX = g.sizeX) (hy : h.sizeY = g.sizeY) (hc : h.cells a b = g.cells a b) :
    _get_cell h a b = _get_cell g a b := by
  unfold _get_cell
  rw [hx, hy, hc]

/-- Reading with `_get_cell` after an unrelated `set_cell` write. -/
theorem _get_cell_set_ne (g : TileMap) (x y v a b : Int) (h : ¬(a = x ∧ b = y)) :
    _get_cell (set_cell g x y v) a b = _get_cell g a b := by
  apply _get_cell_congr <;> simp [set_cell, h]

/-- The full-row flag fold of `check_full_rows`, characterised. -/
theorem rowIsFull_aux (g : TileMap) (y : Int) :
    ∀ (l : List Int) (init : Bool),
      (l.foldl (fun b x => if _get_cell g x y < 1 then false else b) init = true)
        ↔ (init = true ∧ ∀ x ∈ l, 1 ≤ _get_cell g x y) := by
  intro l
  induction l with
  | nil => intro init; simp
  | cons x xs ih =>
    intro init
    simp only [List.foldl_cons, List.mem_cons, forall_eq_or_imp]
    by_cases hc : _get_cell g x y < 1
    · rw [if_pos hc, ih]
      constructor
      · rintro ⟨h, -⟩; cases h
      · rintro ⟨-, h1, -⟩; omega
    · rw [if_neg hc, ih]
      constructor
      · rintro ⟨h1, h2⟩; exact ⟨h1, by omega, h2⟩
      · rintro ⟨h1, -, h2⟩; exact ⟨h1, h2⟩

theorem rowIsFull_iff (g : TileMap) (y : Int) :
    rowIsFull g y = true ↔ ∀ x ∈ interiorXs g, 1 ≤ _get_cell g x y := by
  unfold rowIsFull
  rw [rowIsFull_aux]
  simp

theorem rowIsFull_eq_FullP (g : TileMap) (r : Int) (h0 : 0 ≤ r) (h1 : r < g.sizeY) :
    (rowIsFull g r = true) ↔ FullP g r := by
  rw [rowIsFull_iff]
  unfold FullP
  constructor
  · intro h x hx1 hx2
    have hm := h x (by rw [interiorXs, mem_intRange]; omega)
    unfold _get_cell at hm
    rwa [if_neg (by omega)] at hm
  · intro h x hx
    rw [interiorXs, mem_intRange] at hx
    unfold _get_cell
    rw [if_neg (by omega)]
    exact h x hx.1 hx.2

/-- The row-clearing fold of `remove_row`, characterised. -/
theorem clear_fold_cells (y : Int) :
    ∀ (xs : List Int) (g : TileMap) (a b : Int),
      ((xs.foldl (fun acc x => set_cell acc x y 0) g).cells a b)
        = if b = y ∧ a ∈ xs then 0 else g.cells a b := by
  intro xs
  induction xs with
  | nil => intro g a b; simp
  | cons x xs ih =>
    intro g a b
    rw [List.foldl_cons, ih]
    simp only [set_cell_cells, List.mem_cons]
    by_cases hb : b = y <;> by_cases hax : a = x <;> by_cases haxs : a ∈ xs <;> simp [*]

theorem copyCellStep_sizeX (y2 : Int) (g : TileMap) (x : Int) :
    (copyCellStep y2 g x).sizeX = g.sizeX := by
  unfold copyCellStep
  split <;> rfl

theorem copyCellStep_sizeY (y2 : Int) (g : TileMap) (x : Int) :
    (copyCellStep y2 g x).sizeY = g.sizeY := by
  unfold copyCellStep
  split <;> rfl

/-- The column fold of a single row copy, characterised: it writes row
`y2+1` from row `y2` at the columns of `xs` and touches nothing else. -/
theorem copy_fold_cells (y2 : Int) :
    ∀ (xs : List Int) (g : TileMap), y2 < g.sizeY →
      ∀ a b : Int,
      ((xs.foldl (copyCellStep y2) g).cells a b)
        = if b = y2 + 1 ∧ a ∈ xs then _get_cell g a y2 else g.cells a b := by
  intro xs
  induction xs with
  | nil => intro g hg a b; simp
  | cons x xs ih =>
    intro g hg a b
    rw [List.foldl_cons]
    have hstep : copyCellStep y2 g x = set_cell g x (y2 + 1) (_get_cell g x y2) := by
      unfold copyCellStep
      rw [if_pos hg]
    rw [hstep, ih (set_cell g x (y2 + 1) (_get_cell g x y2)) hg]
    have hget : _get_cell (set_cell g x (y2 + 1) (_get_cell g x y2)) a y2 = _get_cell g a y2 :=
      _get_cell_set_ne _ _ _ _ _ _ (by omega)
    rw [hget]
    simp only [set_cell_cells, List.mem_cons]
    by_cases hb : b = y2 + 1 <;> by_cases hax : a = x <;> by_cases haxs : a ∈ xs <;> simp [*]

/-- One full row copy (`copyRowStep`), characterised. -/
theorem copyRowStep_cells (g : TileMap) (y2 : Int) (hg : y2 < g.sizeY) (a b : Int) :
    (copyRowStep g y2).cells a b
      = if b = y2 + 1 ∧ 1 ≤ a ∧ a < g.sizeX - 1 then _get_cell g a y2 else g.cells a b := by
  unfold copyRowStep
  rw [copy_fold_cells y2 _ g hg]
  by_cases hm : a ∈ interiorXs g
  · have hmi : 1 ≤ a ∧ a < g.sizeX - 1 := by rwa [interiorXs, mem_intRange] at hm
    simp [hm, hmi]
  · have hmi : ¬(1 ≤ a ∧ a < g.sizeX - 1) := by rwa [interiorXs, mem_intRange] at hm
    simp [hm, hmi]

theorem copyRowStep_sizeX (g : TileMap) (y2 : Int) : (copyRowStep g y2).sizeX = g.sizeX := by
  unfold copyRowStep
  exact foldl_preserve (fun h : TileMap => h.sizeX = g.sizeX) (copyCellStep y2)
    (fun h x hh => by
      show (copyCellStep y2 h x).sizeX = g.sizeX
      rw [copyCellStep_sizeX]
      exact hh) _ g rfl

theorem copyRowStep_sizeY (g : TileMap) (y2 : Int) : (copyRowStep g y2).sizeY = g.sizeY := by
  unfold copyRowStep
  exact foldl_preserve (fun h : TileMap => h.sizeY = g.sizeY) (copyCellStep y2)
    (fun h x hh => by
      show (copyCellStep y2 h x).sizeY = g.sizeY
      rw [copyCellStep_sizeY]
      exact hh) _ g rfl

/-- The whole shift phase of `remove_row`: rows `1..n` receive the old
rows `0..n-1` on the interior columns; everything else is untouched. -/
theorem copy_phase_cells :
    ∀ (n : Nat) (g : TileMap), (n : Int) ≤ g.sizeY →
      ∀ a b : Int,
      ((((intRange 0 (n : Int)).reverse).foldl copyRowStep g).cells a b)
        = if (1 ≤ a ∧ a < g.sizeX - 1) ∧ 1 ≤ b ∧ b ≤ (n : Int) then _get_cell g a (b - 1)
          else g.cells a b := by
  intro n
  induction n with
  | zero =>
    intro g hg a b
    have hempty : intRange 0 ((0 : Nat) : Int) = [] := by simp [intRange]
    rw [hempty]
    simp only [List.reverse_nil, List.foldl_nil]
    rw [if_neg (by omega : ¬((1 ≤ a ∧ a < g.sizeX - 1) ∧ 1 ≤ b ∧ b ≤ ((0 : Nat) : Int)))]
  | succ n ih =>
    intro g hg a b
    have hcast : (((n + 1 : Nat)) : Int) = (n : Int) + 1 := by push_cast; ring
    have hone : intRange (n : Int) ((n : Int) + 1) = [(n : Int)] := by
      rw [intRange_cons (n : Int) ((n : Int) + 1) (by omega)]
      simp [intRange]
    have hsplit : intRange 0 (((n + 1 : Nat)) : Int) = intRange 0 (n : Int) ++ [(n : Int)] := by
      rw [hcast, intRange_append 0 (n : Int) ((n : Int) + 1) (by omega) (by omega), hone]
    rw [hsplit, List.reverse_append, List.reverse_singleton, List.singleton_append,
      List.foldl_cons]
    have hn : (n : Int) < g.sizeY := by omega
    have hszX : (copyRowStep g (n : Int)).sizeX = g.sizeX := copyRowStep_sizeX g _
    have hszY : (copyRowStep g (n : Int)).sizeY = g.sizeY := copyRowStep_sizeY g _
    rw [ih (copyRowStep g (n : Int)) (by rw [hszY]; omega)]
    rw [hszX]
    have hrow := copyRowStep_cells g (n : Int) hn
    by_cases hA : 1 ≤ a ∧ a < g.sizeX - 1
    · by_cases hb1 : 1 ≤ b
      · by_cases hbn : b ≤ (n : Int)
        · -- inside the inductive range: the read row b-1 is below n+1
          have hne : ¬(b - 1 = (n : Int) + 1 ∧ 1 ≤ a ∧ a < g.sizeX - 1) := by
            intro hcontra
            omega
          have hgetcongr : _get_cell (copyRowStep g (n : Int)) a (b - 1) = _get_cell g a (b - 1) := by
            apply _get_cell_congr _ _ _ _ hszX hszY
            rw [hrow a (b - 1), if_neg hne]
          rw [if_pos ⟨hA, hb1, hbn⟩, hgetcongr, if_pos (⟨hA, hb1, by omega⟩ :
            (1 ≤ a ∧ a < g.sizeX - 1) ∧ 1 ≤ b ∧ b ≤ (((n + 1 : Nat)) : Int))]
        · by_cases hbn1 : b = (n : Int) + 1
          · -- the row written by this first copy step
            have hfalse : ¬((1 ≤ a ∧ a < g.sizeX - 1) ∧ 1 ≤ b ∧ b ≤ (n : Int)) := by
              intro hcontra
              omega
            rw [if_neg hfalse, hrow a b, if_pos ⟨hbn1, hA⟩, if_pos (⟨hA, hb1, by omega⟩ :
              (1 ≤ a ∧ a < g.sizeX - 1) ∧ 1 ≤ b ∧ b ≤ (((n + 1 : Nat)) : Int))]
            rw [hbn1]
            congr 1
            omega
          · -- above every written row: untouched
            have h1 : ¬((1 ≤ a ∧ a < g.sizeX - 1) ∧ 1 ≤ b ∧ b ≤ (n : Int)) := by
              intro hcontra
              omega
            have h2 : ¬(b = (n : Int) + 1 ∧ 1 ≤ a ∧ a < g.sizeX - 1) := by
              intro hcontra
              omega
            have h3 : ¬((1 ≤ a ∧ a < g.sizeX - 1) ∧ 1 ≤ b ∧ b ≤ (((n + 1 : Nat)) : Int)) := by
              intro hcontra
              omega
            rw [if_neg h1, hrow a b, if_neg h2, if_neg h3]
      · have h1 : ¬((1 ≤ a ∧ a < g.sizeX - 1) ∧ 1 ≤ b ∧ b ≤ (n : Int)) := by
          intro hcontra
          omega
        have h2 : ¬(b = (n : Int) + 1 ∧ 1 ≤ a ∧ a < g.sizeX - 1) := by
          intro hcontra
          omega
        have h3 : ¬((1 ≤ a ∧ a < g.sizeX - 1) ∧ 1 ≤ b ∧ b ≤ (((n + 1 : Nat)) : Int)) := by
          intro hcontra
          omega
        rw [if_neg h1, hrow a b, if_neg h2, if_neg h3]
    · have h1 : ¬((1 ≤ a ∧ a < g.sizeX - 1) ∧ 1 ≤ b ∧ b ≤ (n : Int)) := by
        intro hcontra
        exact hA hcontra.1
      have h2 : ¬(b = (n : Int) + 1 ∧ 1 ≤ a ∧ a < g.sizeX - 1) := by
        intro hcontra
        exact hA hcontra.2
      have h3 : ¬((1 ≤ a ∧ a < g.sizeX - 1) ∧ 1 ≤ b ∧ b ≤ (((n + 1 : Nat)) : Int)) := by
        intro hcontra
        exact hA hcontra.1
      rw [if_neg h1, hrow a b, if_neg h2, if_neg h3]

theorem remove_row_sizeX (g : TileMap) (y : Int) : (remove_row g y).sizeX = g.sizeX := by
  simp only [remove_row]
  have h1 : ((interiorXs g).foldl (fun acc x => set_cell acc x y 0) g).sizeX = g.sizeX :=
    foldl_preserve (fun h : TileMap => h.sizeX = g.sizeX) (fun acc x => set_cell acc x y 0)
      (fun h x hh => hh) _ g rfl
  exact foldl_preserve (fun h : TileMap => h.sizeX = g.sizeX) copyRowStep
    (fun h y2 hh => by
      show (copyRowStep h y2).sizeX = g.sizeX
      rw [copyRowStep_sizeX]
      exact hh) _ _ h1

theorem remove_row_sizeY (g : TileMap) (y : Int) : (remove_row g y).sizeY = g.sizeY := by
  simp only [remove_row]
  have h1 : ((interiorXs g).foldl (fun acc x => set_cell acc x y 0) g).sizeY = g.sizeY :=
    foldl_preserve (fun h : TileMap => h.sizeY = g.sizeY) (fun acc x => set_cell acc x y 0)
      (fun h x hh => hh) _ g rfl
  exact foldl_preserve (fun h : TileMap => h.sizeY = g.sizeY) copyRowStep
    (fun h y2 hh => by
      show (copyRowStep h y2).sizeY = g.sizeY
      rw [copyRowStep_sizeY]
      exact hh) _ _ h1

/-- Closed form of `remove_row` (main.rs lines 209-225): on the interior
columns, rows `1..y` receive the previous rows `0..y-1`, row `y` is
zeroed only when `y = 0` (otherwise it receives the old row `y-1`), rows
below `y` are unchanged, and row 0 keeps its old contents when `y ≥ 1`;
border columns are untouched everywhere. -/
theorem remove_row_cells (g : TileMap) (y : Int) (h0 : 0 ≤ y) (h1 : y < g.sizeY) (a b : Int) :
    (remove_row g y).cells a b
      = if 1 ≤ a ∧ a < g.sizeX - 1 then
          (if 1 ≤ b ∧ b ≤ y then g.cells a (b - 1) else if b = y then 0 else g.cells a b)
        else g.cells a b := by
  have hyn : y = ((y.toNat : Nat) : Int) := by omega
  simp only [remove_row]
  set g1 := (interiorXs g).foldl (fun acc x => set_cell acc x y 0) g with hg1def
  have hg1X : g1.sizeX = g.sizeX :=
    foldl_preserve (fun h : TileMap => h.sizeX = g.sizeX) (fun acc x => set_cell acc x y 0)
      (fun h x hh => hh) _ g rfl
  have hg1Y : g1.sizeY = g.sizeY :=
    foldl_preserve (fun h : TileMap => h.sizeY = g.sizeY) (fun acc x => set_cell acc x y 0)
      (fun h x hh => hh) _ g rfl
  have hg1cells : ∀ c d : Int,
      g1.cells c d = if d = y ∧ 1 ≤ c ∧ c < g.sizeX - 1 then 0 else g.cells c d := by
    intro c d
    have hmem : (c ∈ interiorXs g) = (1 ≤ c ∧ c < g.sizeX - 1) := by
      rw [interiorXs]
      exact propext mem_intRange
    rw [hg1def, clear_fold_cells]
    simp only [hmem]
  have hrange : intRange 0 y = intRange 0 ((y.toNat : Nat) : Int) := by rw [← hyn]
  have hcopy := copy_phase_cells y.toNat g1 (by rw [hg1Y]; omega) a b
  rw [← hyn] at hcopy
  rw [hrange, ← hyn, hcopy, hg1X]
  by_cases hA : 1 ≤ a ∧ a < g.sizeX - 1
  · by_cases hb : 1 ≤ b ∧ b ≤ y
    · rw [if_pos ⟨hA, hb.1, hb.2⟩, if_pos hA, if_pos hb]
      have hget : _get_cell g1 a (b - 1) = g1.cells a (b - 1) := by
        unfold _get_cell
        rw [if_neg (by rw [hg1X, hg1Y]; omega)]
      rw [hget, hg1cells a (b - 1), if_neg (by intro hcontra; omega)]
    · rw [if_neg (by intro hcontra; exact hb ⟨hcontra.2.1, hcontra.2.2⟩), if_pos hA, if_neg hb,
        hg1cells a b]
      by_cases hby : b = y
      · rw [if_pos ⟨hby, hA⟩, if_pos hby]
      · rw [if_neg (by intro hcontra; exact hby hcontra.1), if_neg hby]
  · rw [if_neg (by intro hcontra; exact hA hcontra.1), if_neg hA, hg1cells a b,
      if_neg (by intro hcontra; exact hA hcontra.2)]

/-- Effect of `remove_row` on row fullness: rows `1..y` take the
fullness of the old rows `0..y-1`, row `y = 0` can never stay full,
and every other row keeps its fullness. -/
theorem FullP_remove_row_iff (g : TileMap) (y : Int) (h0 : 0 ≤ y) (h1 : y < g.sizeY)
    (hW : 3 ≤ g.sizeX) (r : Int) :
    FullP (remove_row g y) r ↔
      (if 1 ≤ r ∧ r ≤ y then FullP g (r - 1) else if r = y then False else FullP g r) := by
  unfold FullP
  rw [remove_row_sizeX]
  by_cases hr1 : 1 ≤ r ∧ r ≤ y
  · rw [if_pos hr1]
    constructor
    · intro h x hx1 hx2
      have hh := h x hx1 hx2
      rwa [remove_row_cells g y h0 h1 x r, if_pos ⟨hx1, hx2⟩, if_pos hr1] at hh
    · intro h x hx1 hx2
      rw [remove_row_cells g y h0 h1 x r, if_pos ⟨hx1, hx2⟩, if_pos hr1]
      exact h x hx1 hx2
  · rw [if_neg hr1]
    by_cases hry : r = y
    · rw [if_pos hry, iff_false]
      intro h
      have hh := h 1 (by omega) (by omega)
      rw [remove_row_cells g y h0 h1 1 r, if_pos ⟨by omega, by omega⟩, if_neg hr1,
        if_pos hry] at hh
      omega
    · rw [if_neg hry]
      constructor
      · intro h x hx1 hx2
        have hh := h x hx1 hx2
        rwa [remove_row_cells g y h0 h1 x r, if_pos ⟨hx1, hx2⟩, if_neg hr1, if_neg hry] at hh
      · intro h x hx1 hx2
        rw [remove_row_cells g y h0 h1 x r, if_pos ⟨hx1, hx2⟩, if_neg hr1, if_neg hry]
        exact h x hx1 hx2

/-- A scan over rows none of which is full does nothing. -/
theorem cfrLoop_clean (rec : TileMap → TileMap × Nat) :
    ∀ (ys : List Int) (g : TileMap) (added : Nat),
      (∀ r ∈ ys, rowIsFull g r = false) → cfrLoop rec g ys added = (g, added) := by
  intro ys
  induction ys with
  | nil => intro g added h; rfl
  | cons y ys ih =>
    intro g added h
    simp only [cfrLoop]
    rw [if_neg (by simp [h y (List.mem_cons_self y ys)])]
    exact ih g added (fun r hr => h r (List.mem_cons_of_mem y hr))

/-- A clean prefix of the row scan can be skipped. -/
theorem cfrLoop_append_clean (rec : TileMap → TileMap × Nat) :
    ∀ (ys1 ys2 : List Int) (g : TileMap) (added : Nat),
      (∀ r ∈ ys1, rowIsFull g r = false) →
      cfrLoop rec g (ys1 ++ ys2) added = cfrLoop rec g ys2 added := by
  intro ys1
  induction ys1 with
  | nil => intro ys2 g added h; rfl
  | cons y ys ih =>
    intro ys2 g added h
    rw [List.cons_append]
    simp only [cfrLoop]
    rw [if_neg (by simp [h y (List.mem_cons_self y ys)])]
    exact ih ys2 g added (fun r hr => h r (List.mem_cons_of_mem y hr))

/-- The scan step at a full row: remove it, re-run the whole scan, and
continue with the returned grid and count. -/
theorem cfrLoop_cons_full (rec : TileMap → TileMap × Nat) (g : TileMap) (y : Int)
    (ys : List Int) (added : Nat) (h : rowIsFull g y = true) :
    cfrLoop rec g (y :: ys) added
      = cfrLoop rec (rec (remove_row g y)).1 ys (1 + (rec (remove_row g y)).2) := by
  simp only [cfrLoop]
  rw [if_pos h]

/-- `check_full_rows` on a grid whose only full scanned rows are
`y1 < y2`: it removes row `y1`, then row `y2` of the shifted grid, and
returns the count 2. -/
theorem check_full_rows_two (g : TileMap) (y1 y2 : Int)
    (hW : 3 ≤ g.sizeX) (h0 : 0 ≤ y1) (h12 : y1 < y2) (h2 : y2 < g.sizeY - 1)
    (hf1 : rowIsFull g y1 = true) (hf2 : rowIsFull g y2 = true)
    (hno : ∀ r ∈ scanRows g, r ≠ y1 → r ≠ y2 → rowIsFull g r = false) :
    check_full_rows g = (remove_row (remove_row g y1) y2, 2) := by
  have hH : 3 ≤ g.sizeY := by omega
  have hAX : (remove_row g y1).sizeX = g.sizeX := remove_row_sizeX g y1
  have hAY : (remove_row g y1).sizeY = g.sizeY := remove_row_sizeY g y1
  have hBX : (remove_row (remove_row g y1) y2).sizeX = g.sizeX := by
    rw [remove_row_sizeX, hAX]
  have hBY : (remove_row (remove_row g y1) y2).sizeY = g.sizeY := by
    rw [remove_row_sizeY, hAY]
  -- fullness of the original grid, at the Prop level
  have hgP : ∀ r : Int, 0 ≤ r → r < g.sizeY - 1 → (FullP g r ↔ (r = y1 ∨ r = y2)) := by
    intro r hr0 hr1
    constructor
    · intro h
      by_contra hcon
      push_neg at hcon
      have hfr := hno r (by rw [scanRows, mem_intRange]; omega) hcon.1 hcon.2
      have hbool := (rowIsFull_eq_FullP g r hr0 (by omega)).mpr h
      rw [hfr] at hbool
      cases hbool
    · rintro (rfl | rfl)
      · exact (rowIsFull_eq_FullP g r hr0 (by omega)).mp hf1
      · exact (rowIsFull_eq_FullP g r hr0 (by omega)).mp hf2
  -- fullness after removing row y1
  have hgAP : ∀ r : Int, 0 ≤ r → r < g.sizeY - 1 → (FullP (remove_row g y1) r ↔ r = y2) := by
    intro r hr0 hr1
    rw [FullP_remove_row_iff g y1 h0 (by omega) hW r]
    by_cases hc1 : 1 ≤ r ∧ r ≤ y1
    · rw [if_pos hc1, hgP (r - 1) (by omega) (by omega)]
      constructor
      · rintro (h | h) <;> omega
      · intro h
        omega
    · rw [if_neg hc1]
      by_cases hc2 : r = y1
      · rw [if_pos hc2]
        constructor
        · intro h
          cases h
        · intro h
          omega
      · rw [if_neg hc2, hgP r hr0 hr1]
        constructor
        · rintro (h | h)
          · exact absurd h hc2
          · exact h
        · intro h
          exact Or.inr h
  -- fullness after removing both rows: none is left
  have hgBP : ∀ r : Int, 0 ≤ r → r < g.sizeY - 1 →
      ¬ FullP (remove_row (remove_row g y1) y2) r := by
    intro r hr0 hr1
    rw [FullP_remove_row_iff (remove_row g y1) y2 (by omega) (by rw [hAY]; omega)
      (by rw [hAX]; exact hW) r]
    by_cases hc1 : 1 ≤ r ∧ r ≤ y2
    · rw [if_pos hc1, hgAP (r - 1) (by omega) (by omega)]
      omega
    · rw [if_neg hc1]
      by_cases hc2 : r = y2
      · rw [if_pos hc2]
        exact id
      · rw [if_neg hc2, hgAP r hr0 hr1]
        exact hc2
  -- Bool-level fullness facts used by the scan lemmas
  have hgAfull : rowIsFull (remove_row g y1) y2 = true := by
    rw [rowIsFull_eq_FullP _ y2 (by omega) (by rw [hAY]; omega)]
    exact (hgAP y2 (by omega) (by omega)).mpr rfl
  have hgAfalse : ∀ r : Int, 0 ≤ r → r < g.sizeY - 1 → r ≠ y2 →
      rowIsFull (remove_row g y1) r = false := by
    intro r hr0 hr1 hne
    cases hfr : rowIsFull (remove_row g y1) r
    · rfl
    · exact absurd ((hgAP r hr0 hr1).mp
        ((rowIsFull_eq_FullP _ r hr0 (by rw [hAY]; omega)).mp hfr)) hne
  have hgBfalse : ∀ r : Int, 0 ≤ r → r < g.sizeY - 1 →
      rowIsFull (remove_row (remove_row g y1) y2) r = false := by
    intro r hr0 hr1
    cases hfr : rowIsFull (remove_row (remove_row g y1) y2) r
    · rfl
    · exact absurd ((rowIsFull_eq_FullP _ r hr0 (by rw [hBY]; omega)).mp hfr)
        (hgBP r hr0 hr1)
  -- enough fuel for the three nested scans
  have hWn : 3 ≤ g.sizeX.toNat := by omega
  have hHn : 3 ≤ g.sizeY.toNat := by omega
  have hfuel : 9 ≤ g.sizeX.toNat * g.sizeY.toNat :=
    le_trans (by norm_num) (Nat.mul_le_mul hWn hHn)
  obtain ⟨k, hk⟩ : ∃ k, g.sizeX.toNat * g.sizeY.toNat = k + 2 :=
    ⟨g.sizeX.toNat * g.sizeY.toNat - 2, by omega⟩
  -- scan list decompositions
  have hscan1 : scanRows g = intRange 0 y1 ++ (y1 :: intRange (y1 + 1) (g.sizeY - 1)) := by
    rw [scanRows, intRange_append 0 y1 (g.sizeY - 1) h0 (by omega),
      intRange_cons y1 (g.sizeY - 1) (by omega)]
  have hscan2 : scanRows g = intRange 0 y2 ++ (y2 :: intRange (y2 + 1) (g.sizeY - 1)) := by
    rw [scanRows, intRange_append 0 y2 (g.sizeY - 1) (by omega) (by omega),
      intRange_cons y2 (g.sizeY - 1) (by omega)]
  have hscanA : scanRows (remove_row g y1) = scanRows g := by
    rw [scanRows, scanRows, hAY]
  have hscanB : scanRows (remove_row (remove_row g y1) y2) = scanRows g := by
    rw [scanRows, scanRows, hBY]
  -- the innermost scan finds nothing
  have hinner2 : cfrFuel (k + 1) (remove_row (remove_row g y1) y2)
      = (remove_row (remove_row g y1) y2, 0) := by
    rw [cfrFuel]
    rw [hscanB]
    exact cfrLoop_clean _ (scanRows g) _ 0 (fun r hr => by
      rw [scanRows, mem_intRange] at hr
      exact hgBfalse r hr.1 hr.2)
  -- the middle scan finds exactly row y2
  have hinner : cfrFuel (k + 2) (remove_row g y1) = (remove_row (remove_row g y1) y2, 1) := by
    show cfrFuel (k + 1 + 1) (remove_row g y1) = _
    rw [cfrFuel]
    rw [hscanA, hscan2,
      cfrLoop_append_clean (cfrFuel (k + 1)) (intRange 0 y2)
        (y2 :: intRange (y2 + 1) (g.sizeY - 1)) (remove_row g y1) 0
        (fun r hr => by
          rw [mem_intRange] at hr
          exact hgAfalse r hr.1 (by omega) (by omega)),
      cfrLoop_cons_full (cfrFuel (k + 1)) (remove_row g y1) y2
        (intRange (y2 + 1) (g.sizeY - 1)) 0 hgAfull,
      hinner2]
    rw [cfrLoop_clean (cfrFuel (k + 1)) (intRange (y2 + 1) (g.sizeY - 1)) _ _
      (fun r hr => by
        rw [mem_intRange] at hr
        exact hgBfalse r (by omega) hr.2)]
    rfl
  -- the outer scan: row y1 first, then nothing further
  unfold check_full_rows
  rw [hk]
  show cfrFuel (k + 2 + 1) g = _
  rw [cfrFuel]
  rw [hscan1,
    cfrLoop_append_clean (cfrFuel (k + 2)) (intRange 0 y1)
      (y1 :: intRange (y1 + 1) (g.sizeY - 1)) g 0
      (fun r hr => by
        rw [mem_intRange] at hr
        exact hno r (by rw [scanRows, mem_intRange]; omega) (by omega) (by omega)),
    cfrLoop_cons_full (cfrFuel (k + 2)) g y1 (intRange (y1 + 1) (g.sizeY - 1)) 0 hf1,
    hinner]
  rw [cfrLoop_clean (cfrFuel (k + 2)) (intRange (y1 + 1) (g.sizeY - 1)) _ _
    (fun r hr => by
      rw [mem_intRange] at hr
      exact hgBfalse r (by omega) hr.2)]
  rfl

/-- Writing `previous_position` back into `position` is the identity
when they already agree. -/
theorem Block_set_position_self (b : Block) (h : b.position = b.previous_position) :
    ({ b with position := b.previous_position } : Block) = b := by
  obtain ⟨pos, ppos, bt, sh, rot, prot, d, md⟩ := b
  change pos = ppos at h
  rw [h]

/-- Writing `previous_rotation` back into `rotation` is the identity
when they already agree. -/
theorem Block_set_rotation_self (b : Block) (h : b.rotation = b.previous_rotation) :
    ({ b with rotation := b.previous_rotation } : Block) = b := by
  obtain ⟨pos, ppos, bt, sh, rot, prot, d, md⟩ := b
  change rot = prot at h
  rw [h]

/-- The position-test fold does nothing when no scanned cell collides. -/
theorem tp_fold_noop (g : TileMap) :
    ∀ (l : List (Nat × Nat)) (acc : Block),
      (∀ p ∈ l, ¬(get_cell acc p.1 p.2 false = true ∧
        0 < _get_cell g (acc.position.1 + (p.1 : Int)) (acc.position.2 + (p.2 : Int)))) →
      l.foldl (tpStep g) acc = acc := by
  intro l
  induction l with
  | nil => intro acc h; rfl
  | cons p l ih =>
    intro acc h
    rw [List.foldl_cons]
    have hstep : tpStep g acc p = acc := by
      unfold tpStep
      by_cases hc : get_cell acc p.1 p.2 false = true
      · rw [if_pos hc,
          if_neg (fun hlt => h p (List.mem_cons_self p l) ⟨hc, hlt⟩)]
      · rw [if_neg hc]
    rw [hstep]
    exact ih acc (fun q hq => h q (List.mem_cons_of_mem p hq))

/-- Once the position equals the rollback target, the position-test fold
is inert: a collision just rewrites the position to itself and the
`down` update is guarded by a strict comparison that now fails. -/
theorem tp_fold_inert (g : TileMap) :
    ∀ (l : List (Nat × Nat)) (acc : Block),
      acc.position = acc.previous_position →
      l.foldl (tpStep g) acc = acc := by
  intro l
  induction l with
  | nil => intro acc h; rfl
  | cons p l ih =>
    intro acc h
    rw [List.foldl_cons]
    have hstep : tpStep g acc p = acc := by
      unfold tpStep
      by_cases hc : get_cell acc p.1 p.2 false = true
      · rw [if_pos hc]
        by_cases hlt : 0 < _get_cell g (acc.position.1 + (p.1 : Int)) (acc.position.2 + (p.2 : Int))
        · rw [if_pos hlt, if_neg (by rw [h]; omega)]
          show ({ acc with position := acc.previous_position } : Block) = acc
          exact Block_set_position_self acc h
        · rw [if_neg hlt]
      · rw [if_neg hc]
    rw [hstep]
    exact ih acc h

/-- The position-test fold with a colliding cell somewhere in the scan:
the position rolls back to `previous_position` and `down` is set exactly
when the collision happened strictly below with unchanged `x`. -/
theorem tp_fold_collide (g : TileMap) :
    ∀ (l : List (Nat × Nat)) (acc : Block),
      (∃ p ∈ l, get_cell acc p.1 p.2 false = true ∧
        0 < _get_cell g (acc.position.1 + (p.1 : Int)) (acc.position.2 + (p.2 : Int))) →
      l.foldl (tpStep g) acc =
        { acc with
          down := acc.down || (decide (acc.previous_position.2 < acc.position.2) &&
            decide (acc.position.1 = acc.previous_position.1)),
          position := acc.previous_position } := by
  intro l
  induction l with
  | nil =>
    intro acc h
    obtain ⟨p, hp, -⟩ := h
    cases hp
  | cons p l ih =>
    intro acc h
    rw [List.foldl_cons]
    by_cases hc : get_cell acc p.1 p.2 false = true ∧
        0 < _get_cell g (acc.position.1 + (p.1 : Int)) (acc.position.2 + (p.2 : Int))
    · have hstep : tpStep g acc p =
          { acc with
            down := acc.down || (decide (acc.previous_position.2 < acc.position.2) &&
              decide (acc.position.1 = acc.previous_position.1)),
            position := acc.previous_position } := by
        unfold tpStep
        rw [if_pos hc.1, if_pos hc.2]
        by_cases h1 : acc.previous_position.2 < acc.position.2
        · by_cases h2 : acc.position.1 = acc.previous_position.1
          · simp [h1, h2]
          · simp [h1, h2]
        · simp [h1]
      rw [hstep]
      exact tp_fold_inert g l _ rfl
    · have hstep : tpStep g acc p = acc := by
        unfold tpStep
        by_cases hg : get_cell acc p.1 p.2 false = true
        · rw [if_pos hg, if_neg (fun hlt => hc ⟨hg, hlt⟩)]
        · rw [if_neg hg]
      rw [hstep]
      obtain ⟨q, hq, hq2⟩ := h
      rcases List.mem_cons.mp hq with rfl | hq'
      · exact absurd hq2 hc
      · exact ih acc ⟨q, hq', hq2⟩

/-- Closed form of `test_position`: on any collision of the candidate
footprint the position rolls back to `previous_position` (with the
landing flag set exactly for a strictly-downward collision with
unchanged `x`); otherwise the block is unchanged. -/
theorem test_position_eq (b : Block) (g : TileMap) :
    test_position b g =
      if overlaps g b then
        { b with
          down := b.down || (decide (b.previous_position.2 < b.position.2) &&
            decide (b.position.1 = b.previous_position.1)),
          position := b.previous_position }
      else b := by
  by_cases ho : overlaps g b = true
  · rw [if_pos ho]
    unfold test_position
    apply tp_fold_collide
    rw [overlaps, List.any_eq_true] at ho
    obtain ⟨p, hp, hcond⟩ := ho
    rw [Bool.and_eq_true, decide_eq_true_eq] at hcond
    exact ⟨p, hp, hcond.1, hcond.2⟩
  · rw [if_neg ho]
    unfold test_position
    apply tp_fold_noop
    intro p hp hcontra
    apply ho
    rw [overlaps, List.any_eq_true]
    refine ⟨p, hp, ?_⟩
    rw [Bool.and_eq_true, decide_eq_true_eq]
    exact hcontra

/-- Once the rotation equals the rollback target, the rotation-test fold
is inert. -/
theorem tr_fold_inert (g : TileMap) :
    ∀ (l : List (Nat × Nat)) (acc : Block),
      acc.rotation = acc.previous_rotation →
      l.foldl (trStep g) acc = acc := by
  intro l
  induction l with
  | nil => intro acc h; rfl
  | cons p l ih =>
    intro acc h
    rw [List.foldl_cons]
    have hstep : trStep g acc p = acc := by
      unfold trStep
      by_cases hc : get_cell acc p.1 p.2 false = true
      · by_cases hlt : 0 < _get_cell g (acc.position.1 + (p.1 : Int)) (acc.position.2 + (p.2 : Int))
        · rw [if_pos hc, if_pos hlt]
          exact Block_set_rotation_self acc h
        · rw [if_pos hc, if_neg hlt]
      · rw [if_neg hc]
    rw [hstep]
    exact ih acc h

/-- The rotation-test fold does nothing when no scanned cell collides. -/
theorem tr_fold_noop (g : TileMap) :
    ∀ (l : List (Nat × Nat)) (acc : Block),
      (∀ p ∈ l, ¬(get_cell acc p.1 p.2 false = true ∧
        0 < _get_cell g (acc.position.1 + (p.1 : Int)) (acc.position.2 + (p.2 : Int)))) →
      l.foldl (trStep g) acc = acc := by
  intro l
  induction l with
  | nil => intro acc h; rfl
  | cons p l ih =>
    intro acc h
    rw [List.foldl_cons]
    have hstep : trStep g acc p = acc := by
      unfold trStep
      by_cases hc : get_cell acc p.1 p.2 false = true
      · rw [if_pos hc, if_neg (fun hlt => h p (List.mem_cons_self p l) ⟨hc, hlt⟩)]
      · rw [if_neg hc]
    rw [hstep]
    exact ih acc (fun q hq => h q (List.mem_cons_of_mem p hq))

/-- The rotation-test fold with a colliding cell somewhere in the scan
rolls the rotation back to `previous_rotation`. -/
theorem tr_fold_collide (g : TileMap) :
    ∀ (l : List (Nat × Nat)) (acc : Block),
      (∃ p ∈ l, get_cell acc p.1 p.2 false = true ∧
        0 < _get_cell g (acc.position.1 + (p.1 : Int)) (acc.position.2 + (p.2 : Int))) →
      l.foldl (trStep g) acc = { acc with rotation := acc.previous_rotation } := by
  intro l
  induction l with
  | nil =>
    intro acc h
    obtain ⟨p, hp, -⟩ := h
    cases hp
  | cons p l ih =>
    intro acc h
    rw [List.foldl_cons]
    by_cases hc : get_cell acc p.1 p.2 false = true ∧
        0 < _get_cell g (acc.position.1 + (p.1 : Int)) (acc.position.2 + (p.2 : Int))
    · have hstep : trStep g acc p = { acc with rotation := acc.previous_rotation } := by
        unfold trStep
        rw [if_pos hc.1, if_pos hc.2]
      rw [hstep]
      exact tr_fold_inert g l _ rfl
    · have hstep : trStep g acc p = acc := by
        unfold trStep
        by_cases hg : get_cell acc p.1 p.2 false = true
        · rw [if_pos hg, if_neg (fun hlt => hc ⟨hg, hlt⟩)]
        · rw [if_neg hg]
      rw [hstep]
      obtain ⟨q, hq, hq2⟩ := h
      rcases List.mem_cons.mp hq with rfl | hq'
      · exact absurd hq2 hc
      · exact ih acc ⟨q, hq', hq2⟩

/-- Closed form of `test_rotation`: on any collision of the candidate
footprint the rotation rolls back to `previous_rotation`; otherwise the
block is unchanged. -/
theorem test_rotation_eq (b : Block) (g : TileMap) :
    test_rotation b g =
      if overlaps g b then { b with rotation := b.previous_rotation } else b := by
  by_cases ho : overlaps g b = true
  · rw [if_pos ho]
    unfold test_rotation
    apply tr_fold_collide
    rw [overlaps, List.any_eq_true] at ho
    obtain ⟨p, hp, hcond⟩ := ho
    rw [Bool.and_eq_true, decide_eq_true_eq] at hcond
    exact ⟨p, hp, hcond.1, hcond.2⟩
  · rw [if_neg ho]
    unfold test_rotation
    apply tr_fold_noop
    intro p hp hcontra
    apply ho
    rw [overlaps, List.any_eq_true]
    refine ⟨p, hp, ?_⟩
    rw [Bool.and_eq_true, decide_eq_true_eq]
    exact hcontra

/-- Claim C6: for every piece, every local cell and every starting
rotation, sampling the shape with `get_cell` after advancing the
rotation with `next` four times returns the same value as sampling at
the starting rotation: the rotation transform is cyclic of order 4. -/
theorem claim_C6_rotation_closure (b : Block) (x y : Nat) :
    get_cell { b with rotation := b.rotation.next.next.next.next } x y false
      = get_cell b x y false := by
  obtain ⟨bp, bpp, bt, bsh, br, bpr, bd, bmd⟩ := b
  cases br <;> rfl

/-- Claim C2, counterexample: the border ring of the freshly built grid
holds the wall id 8, yet the out-of-bounds read at `(-1, 0)` returns the
constant 1, not the wall id 8 as claimed. -/
theorem claim_C2_counterexample :
    initTileMap.cells 0 0 = 8 ∧ _get_cell initTileMap (-1) 0 = 1 ∧
      _get_cell initTileMap (-1) 0 ≠ 8 := by
  refine ⟨by decide, rfl, by decide⟩

/-- Claim C2, amended: `_get_cell` returns the constant solid id 1 (not
the border's wall id 8) for every out-of-bounds coordinate, and the
stored cell value for every in-bounds coordinate. -/
theorem claim_C2_get_amended (g : TileMap) (x y : Int) :
    ((x < 0 ∨ x ≥ g.sizeX ∨ y < 0 ∨ y ≥ g.sizeY) → _get_cell g x y = 1)
    ∧ (0 ≤ x → x < g.sizeX → 0 ≤ y → y < g.sizeY → _get_cell g x y = g.cells x y) := by
  constructor
  · intro h
    unfold _get_cell
    rw [if_pos h]
  · intro h1 h2 h3 h4
    unfold _get_cell
    rw [if_neg (by omega)]

/-- Claim C2 witness: the amended statement evaluated on the initial
grid at the out-of-bounds coordinate `(-1, 0)` and the in-bounds
coordinate `(5, 5)`. -/
theorem claim_C2_get_amended_witness :
    _get_cell initTileMap (-1) 0 = 1
    ∧ _get_cell initTileMap 5 5 = initTileMap.cells 5 5 :=
  ⟨(claim_C2_get_amended initTileMap (-1) 0).1 (Or.inl (by norm_num)),
   (claim_C2_get_amended initTileMap 5 5).2 (by norm_num) (by decide) (by norm_num)
     (by decide)⟩

/-- Claim C3: for a piece whose previous position and previous rotation
are collision-free against the grid, a colliding candidate position is
rolled back in full by `test_position` and a colliding candidate
rotation is rolled back in full by `test_rotation`; no partially applied
state remains. -/
theorem claim_C3_collision_rollback (b : Block) (g : TileMap)
    (hp : overlaps g { b with position := b.previous_position } = false)
    (hr : overlaps g { b with rotation := b.previous_rotation } = false) :
    (overlaps g b = true →
      (test_position b g).position = b.previous_position
      ∧ (test_position b g).rotation = b.rotation
      ∧ (test_position b g).previous_position = b.previous_position)
    ∧ (overlaps g b = true →
      (test_rotation b g).rotation = b.previous_rotation
      ∧ (test_rotation b g).position = b.position
      ∧ (test_rotation b g).previous_rotation = b.previous_rotation) := by
  constructor
  · intro ho
    rw [test_position_eq, if_pos ho]
    exact ⟨rfl, rfl, rfl⟩
  · intro ho
    rw [test_rotation_eq, if_pos ho]
    exact ⟨rfl, rfl, rfl⟩

/-- Claim C3 witness: the rollback statement at the freshly spawned
piece on the freshly built grid, whose previous position and previous
rotation are both collision-free. -/
theorem claim_C3_collision_rollback_witness :
    (overlaps initTileMap (Block.new (START_X, START_Y) 1) = true →
      (test_position (Block.new (START_X, START_Y) 1) initTileMap).position
          = (Block.new (START_X, START_Y) 1).previous_position
      ∧ (test_position (Block.new (START_X, START_Y) 1) initTileMap).rotation
          = (Block.new (START_X, START_Y) 1).rotation
      ∧ (test_position (Block.new (START_X, START_Y) 1) initTileMap).previous_position
          = (Block.new (START_X, START_Y) 1).previous_position)
    ∧ (overlaps initTileMap (Block.new (START_X, START_Y) 1) = true →
      (test_rotation (Block.new (START_X, START_Y) 1) initTileMap).rotation
          = (Block.new (START_X, START_Y) 1).previous_rotation
      ∧ (test_rotation (Block.new (START_X, START_Y) 1) initTileMap).position
          = (Block.new (START_X, START_Y) 1).position
      ∧ (test_rotation (Block.new (START_X, START_Y) 1) initTileMap).previous_rotation
          = (Block.new (START_X, START_Y) 1).previous_rotation) :=
  claim_C3_collision_rollback (Block.new (START_X, START_Y) 1) initTileMap
    (by decide) (by decide)

/-- Claim C4: with the landing flag initially clear, `test_position`
sets it exactly when the candidate footprint collides with the candidate
`y` strictly greater than `previous_position.y` and the candidate `x`
equal to `previous_position.x`; a collision during a purely sideways
move (`y` unchanged) never sets it. -/
theorem claim_C4_landing_flag (b : Block) (g : TileMap) (hdown : b.down = false) :
    ((test_position b g).down = true ↔
      (overlaps g b = true ∧ b.previous_position.2 < b.position.2
        ∧ b.position.1 = b.previous_position.1))
    ∧ (b.position.2 = b.previous_position.2 → (test_position b g).down = false) := by
  rw [test_position_eq]
  by_cases ho : overlaps g b = true
  · rw [if_pos ho]
    constructor
    · simp only [hdown, Bool.false_or, Bool.and_eq_true, decide_eq_true_eq]
      constructor
      · intro hcond
        exact ⟨ho, hcond.1, hcond.2⟩
      · intro hcond
        exact ⟨hcond.2.1, hcond.2.2⟩
    · intro heq
      simp only [hdown, Bool.false_or]
      simp [heq]
  · rw [if_neg ho]
    constructor
    · rw [hdown]
      constructor
      · intro hcontra
        cases hcontra
      · rintro ⟨hcontra, -⟩
        exact absurd hcontra ho
    · intro heq
      exact hdown

/-- Claim C4 witness: the landing statement at a piece one row above its
resting place on the initial grid, moving straight down into the bottom
wall. -/
theorem claim_C4_landing_flag_witness :
    ((test_position { Block.new (4, 24) 1 with position := (4, 25) } initTileMap).down = true ↔
      (overlaps initTileMap { Block.new (4, 24) 1 with position := (4, 25) } = true
        ∧ ({ Block.new (4, 24) 1 with position := (4, 25) } : Block).previous_position.2
            < ({ Block.new (4, 24) 1 with position := (4, 25) } : Block).position.2
        ∧ ({ Block.new (4, 24) 1 with position := (4, 25) } : Block).position.1
            = ({ Block.new (4, 24) 1 with position := (4, 25) } : Block).previous_position.1))
    ∧ (({ Block.new (4, 24) 1 with position := (4, 25) } : Block).position.2
          = ({ Block.new (4, 24) 1 with position := (4, 25) } : Block).previous_position.2 →
        (test_position { Block.new (4, 24) 1 with position := (4, 25) } initTileMap).down
          = false) :=
  claim_C4_landing_flag { Block.new (4, 24) 1 with position := (4, 25) } initTileMap rfl

/-- Claim C5, counterexample: `remove_row` does not leave row 0 empty.
With a stack id 7 stored at the interior cell `(3, 0)`, clearing the
interior row 1 leaves the id still present at `(3, 0)`. -/
theorem claim_C5_counterexample :
    (remove_row (set_cell initTileMap 3 0 7) 1).cells 3 0 = 7 ∧ (7 : Int) ≠ 0 := by
  refine ⟨by decide, by decide⟩

/-- Claim C5, amended: for an interior row index `y`, `remove_row`
zeroes row `y`'s interior and shifts every row above `y` down by one
(interior columns only; border columns and rows below `y` untouched),
so that for `y ≥ 1` row `y` ends holding the old row `y-1`; row 0 is
not cleared: it keeps its previous contents (it is zeroed only in the
degenerate case `y = 0`). -/
theorem claim_C5_remove_row_amended (g : TileMap) (y : Int) (h0 : 0 ≤ y)
    (h1 : y < g.sizeY - 1) :
    (∀ x b : Int, ¬(1 ≤ x ∧ x < g.sizeX - 1) → (remove_row g y).cells x b = g.cells x b)
    ∧ (∀ x b : Int, 1 ≤ x → x < g.sizeX - 1 → 1 ≤ b → b ≤ y →
        (remove_row g y).cells x b = g.cells x (b - 1))
    ∧ (∀ x b : Int, 1 ≤ x → x < g.sizeX - 1 → y < b →
        (remove_row g y).cells x b = g.cells x b)
    ∧ (1 ≤ y → ∀ x : Int, (remove_row g y).cells x 0 = g.cells x 0)
    ∧ (y = 0 → ∀ x : Int, 1 ≤ x → x < g.sizeX - 1 → (remove_row g y).cells x 0 = 0) := by
  refine ⟨?_, ?_, ?_, ?_, ?_⟩
  · intro x b hx
    rw [remove_row_cells g y h0 (by omega), if_neg hx]
  · intro x b hx1 hx2 hb1 hb2
    rw [remove_row_cells g y h0 (by omega), if_pos ⟨hx1, hx2⟩, if_pos ⟨hb1, hb2⟩]
  · intro x b hx1 hx2 hb
    rw [remove_row_cells g y h0 (by omega), if_pos ⟨hx1, hx2⟩, if_neg (by omega),
      if_neg (by omega)]
  · intro hy x
    by_cases hx : 1 ≤ x ∧ x < g.sizeX - 1
    · rw [remove_row_cells g y h0 (by omega), if_pos hx, if_neg (by omega), if_neg (by omega)]
    · rw [remove_row_cells g y h0 (by omega), if_neg hx]
  · intro hy x hx1 hx2
    rw [remove_row_cells g y h0 (by omega), if_pos ⟨hx1, hx2⟩, if_neg (by omega),
      if_pos (by omega)]

/-- Claim C5 witness: the amended statement at the initial grid for the
interior row 1, shift clause included. -/
theorem claim_C5_remove_row_amended_witness :
    (0 : Int) ≤ 1 ∧ (1 : Int) < initTileMap.sizeY - 1
    ∧ (∀ x b : Int, 1 ≤ x → x < initTileMap.sizeX - 1 → 1 ≤ b → b ≤ 1 →
        (remove_row initTileMap 1).cells x b = initTileMap.cells x (b - 1)) :=
  ⟨by norm_num, by decide,
   (claim_C5_remove_row_amended initTileMap 1 (by norm_num) (by decide)).2.1⟩

/-- Claim C9: from any session state other than `GameOn` (`GameOver`,
`Pause`, or the transient `Restart`), the pause toggle `P` moves the
session directly to `GameOn`, leaving the score and the grid contents
unchanged: no reset occurs. -/
theorem claim_C9_unpause (s : GameState) (h : s.game_state ≠ GameStates.GameOn) :
    (key_down_event s .P).game_state = GameStates.GameOn
    ∧ (key_down_event s .P).points = s.points
    ∧ (key_down_event s .P).tile_map = s.tile_map := by
  obtain ⟨tm, blk, gs, mus, pts, cont⟩ := s
  obtain ⟨bp, bpp, bt, bsh, br, bpr, bd, bmd⟩ := blk
  cases bd <;> cases gs <;> first
    | exact absurd rfl h
    | exact ⟨rfl, rfl, rfl⟩

/-- Claim C9 witness: the unpause statement at the initial session moved
into the `GameOver` state. -/
theorem claim_C9_unpause_witness :
    (key_down_event { GameState.new with game_state := .GameOver } .P).game_state
        = GameStates.GameOn
    ∧ (key_down_event { GameState.new with game_state := .GameOver } .P).points
        = ({ GameState.new with game_state := .GameOver } : GameState).points
    ∧ (key_down_event { GameState.new with game_state := .GameOver } .P).tile_map
        = ({ GameState.new with game_state := .GameOver } : GameState).tile_map :=
  claim_C9_unpause { GameState.new with game_state := .GameOver } (by decide)

/-- Claim C1: on a grid at least three columns wide whose only full
scanned rows are `y1 < y2` (the bottom wall row is outside the scan),
`check_full_rows` removes both rows and returns 2; afterwards no scanned
row is full, every interior cell of a non-full row ends shifted down by
exactly the number of full rows that were below it, and the bottom wall
row is never scanned or changed. -/
theorem claim_C1_row_clear_cascade (g : TileMap) (y1 y2 : Int)
    (hW : 3 ≤ g.sizeX) (h0 : 0 ≤ y1) (h12 : y1 < y2) (h2 : y2 < g.sizeY - 1)
    (hf1 : rowIsFull g y1 = true) (hf2 : rowIsFull g y2 = true)
    (hno : ∀ r ∈ scanRows g, r ≠ y1 → r ≠ y2 → rowIsFull g r = false) :
    (check_full_rows g).2 = 2
    ∧ (∀ r ∈ scanRows g, rowIsFull (check_full_rows g).1 r = false)
    ∧ (∀ r ∈ scanRows g, rowIsFull g r = false →
        ∀ x : Int, 1 ≤ x → x < g.sizeX - 1 →
          (check_full_rows g).1.cells x
              (r + (if r < y1 then 2 else if r < y2 then 1 else 0))
            = g.cells x r)
    ∧ (∀ x : Int, (check_full_rows g).1.cells x (g.sizeY - 1)
        = g.cells x (g.sizeY - 1)) := by
  have hH : 3 ≤ g.sizeY := by omega
  have hAX : (remove_row g y1).sizeX = g.sizeX := remove_row_sizeX g y1
  have hAY : (remove_row g y1).sizeY = g.sizeY := remove_row_sizeY g y1
  have hBY : (remove_row (remove_row g y1) y2).sizeY = g.sizeY := by
    rw [remove_row_sizeY, hAY]
  have hgP : ∀ r : Int, 0 ≤ r → r < g.sizeY - 1 → (FullP g r ↔ (r = y1 ∨ r = y2)) := by
    intro r hr0 hr1
    constructor
    · intro h
      by_contra hcon
      push_neg at hcon
      have hfr := hno r (by rw [scanRows, mem_intRange]; omega) hcon.1 hcon.2
      have hbool := (rowIsFull_eq_FullP g r hr0 (by omega)).mpr h
      rw [hfr] at hbool
      cases hbool
    · rintro (rfl | rfl)
      · exact (rowIsFull_eq_FullP g r hr0 (by omega)).mp hf1
      · exact (rowIsFull_eq_FullP g r hr0 (by omega)).mp hf2
  have hgAP : ∀ r : Int, 0 ≤ r → r < g.sizeY - 1 → (FullP (remove_row g y1) r ↔ r = y2) := by
    intro r hr0 hr1
    rw [FullP_remove_row_iff g y1 h0 (by omega) hW r]
    by_cases hc1 : 1 ≤ r ∧ r ≤ y1
    · rw [if_pos hc1, hgP (r - 1) (by omega) (by omega)]
      constructor
      · rintro (h | h) <;> omega
      · intro h
        omega
    · rw [if_neg hc1]
      by_cases hc2 : r = y1
      · rw [if_pos hc2]
        constructor
        · intro h
          cases h
        · intro h
          omega
      · rw [if_neg hc2, hgP r hr0 hr1]
        constructor
        · rintro (h | h)
          · exact absurd h hc2
          · exact h
        · intro h
          exact Or.inr h
  have hgBP : ∀ r : Int, 0 ≤ r → r < g.sizeY - 1 →
      ¬ FullP (remove_row (remove_row g y1) y2) r := by
    intro r hr0 hr1
    rw [FullP_remove_row_iff (remove_row g y1) y2 (by omega) (by rw [hAY]; omega)
      (by rw [hAX]; exact hW) r]
    by_cases hc1 : 1 ≤ r ∧ r ≤ y2
    · rw [if_pos hc1, hgAP (r - 1) (by omega) (by omega)]
      omega
    · rw [if_neg hc1]
      by_cases hc2 : r = y2
      · rw [if_pos hc2]
        exact id
      · rw [if_neg hc2, hgAP r hr0 hr1]
        exact hc2
  have hmain := check_full_rows_two g y1 y2 hW h0 h12 h2 hf1 hf2 hno
  rw [hmain]
  refine ⟨rfl, ?_, ?_, ?_⟩
  · intro r hr
    rw [scanRows, mem_intRange] at hr
    cases hfr : rowIsFull (remove_row (remove_row g y1) y2) r
    · rfl
    · exact absurd ((rowIsFull_eq_FullP _ r hr.1 (by rw [hBY]; omega)).mp hfr)
        (hgBP r hr.1 hr.2)
  · intro r hr hfr x hx1 hx2
    rw [scanRows, mem_intRange] at hr
    have hne1 : r ≠ y1 := by
      intro hcontra
      rw [hcontra, hf1] at hfr
      cases hfr
    have hne2 : r ≠ y2 := by
      intro hcontra
      rw [hcontra, hf2] at hfr
      cases hfr
    by_cases hc1 : r < y1
    · rw [if_pos hc1,
        remove_row_cells (remove_row g y1) y2 (by omega) (by rw [hAY]; omega), hAX,
        if_pos ⟨hx1, hx2⟩, if_pos (⟨by omega, by omega⟩ : 1 ≤ r + 2 ∧ r + 2 ≤ y2),
        remove_row_cells g y1 h0 (by omega),
        if_pos ⟨hx1, hx2⟩, if_pos (⟨by omega, by omega⟩ : 1 ≤ r + 2 - 1 ∧ r + 2 - 1 ≤ y1)]
      congr 1
      omega
    · by_cases hc2 : r < y2
      · rw [if_neg hc1, if_pos hc2,
          remove_row_cells (remove_row g y1) y2 (by omega) (by rw [hAY]; omega), hAX,
          if_pos ⟨hx1, hx2⟩, if_pos (⟨by omega, by omega⟩ : 1 ≤ r + 1 ∧ r + 1 ≤ y2),
          remove_row_cells g y1 h0 (by omega),
          if_pos ⟨hx1, hx2⟩, if_neg (by omega), if_neg (by omega)]
        congr 1
        omega
      · rw [if_neg hc1, if_neg hc2,
          remove_row_cells (remove_row g y1) y2 (by omega) (by rw [hAY]; omega), hAX,
          if_pos ⟨hx1, hx2⟩, if_neg (by omega), if_neg (by omega),
          remove_row_cells g y1 h0 (by omega),
          if_pos ⟨hx1, hx2⟩, if_neg (by omega), if_neg (by omega)]
        congr 1
        omega
  · intro x
    rw [remove_row_cells (remove_row g y1) y2 (by omega) (by rw [hAY]; omega), hAX]
    by_cases hx : 1 ≤ x ∧ x < g.sizeX - 1
    · rw [if_pos hx, if_neg (by omega), if_neg (by omega),
        remove_row_cells g y1 h0 (by omega), if_pos hx, if_neg (by omega),
        if_neg (by omega)]
    · rw [if_neg hx, remove_row_cells g y1 h0 (by omega), if_neg hx]

/-- Claim C1 witness: the cascade statement on a 12x30 walled grid whose
only full scanned rows are 5 and 8. -/
theorem claim_C1_row_clear_cascade_witness :
    rowIsFull witnessGridC1 5 = true
    ∧ rowIsFull witnessGridC1 8 = true
    ∧ (check_full_rows witnessGridC1).2 = 2 :=
  ⟨by decide, by decide,
   (claim_C1_row_clear_cascade witnessGridC1 5 8 (by decide) (by norm_num) (by norm_num)
     (by decide) (by decide) (by decide) (by decide)).1⟩

/-- In the `GameOn` state an update with the throttle elapsed runs the
`GameOn` branch. -/
theorem update_gameOn (gd : Bool) (t : Nat) (s : GameState)
    (h : s.game_state = GameStates.GameOn) :
    update true gd t s = updateGameOnBranch gd t s := by
  obtain ⟨tm, blk, gs, mus, pts, cont⟩ := s
  cases gs with
  | GameOn =>
    show (if (!true) = true then (⟨tm, blk, GameStates.GameOn, mus, pts, cont⟩ : GameState)
        else updateGameOnBranch gd t ⟨tm, blk, GameStates.GameOn, mus, pts, cont⟩)
      = updateGameOnBranch gd t ⟨tm, blk, GameStates.GameOn, mus, pts, cont⟩
    rw [if_neg (by decide : ¬((!true) = true))]
  | GameOver => exact GameStates.noConfusion h
  | Pause => exact GameStates.noConfusion h
  | Restart => exact GameStates.noConfusion h

/-- Claim C8, counterexample: in the pre-landing state the piece lands
during the update at resting row 24, and the new piece's spawn row
`START_Y = 2` is above the safety line 5, so the claim (read on the
spawn row) demands a `GameOver` transition; the session stays `GameOn`
because the source compares the landed piece's own row against 5. -/
theorem claim_C8_counterexample :
    (resolvedBlock true landingState).down = true
    ∧ START_Y < 5
    ∧ (update true true 2 landingState).game_state = GameStates.GameOn
    ∧ (update true true 2 landingState).game_state ≠ GameStates.GameOver := by
  refine ⟨by decide, by decide, by decide, by decide⟩

/-- Claim C8, amended: while `GameOn`, an update transitions to
`GameOver` exactly when the resolved block has landed this cycle and its
own resting row is above the safety line (`position.y < 5`); the
threshold is evaluated on the landed piece's row at the moment of
landing only, not on the new piece's constant spawn row and not
continuously. -/
theorem claim_C8_gameover_amended (s : GameState) (gravityDue : Bool) (newType : Nat)
    (h : s.game_state = GameStates.GameOn) :
    ((update true gravityDue newType s).game_state = GameStates.GameOver ↔
      ((resolvedBlock gravityDue s).down = true
        ∧ (resolvedBlock gravityDue s).position.2 < 5)) := by
  rw [update_gameOn gravityDue newType s h]
  unfold updateGameOnBranch
  generalize resolvedBlock gravityDue s = B
  generalize check_full_rows (markedMap gravityDue s) = P
  by_cases hd : B.down = true
  · rw [if_pos hd]
    show (if B.position.2 < 5 then GameStates.GameOver else s.game_state)
        = GameStates.GameOver ↔ _
    by_cases hlt : B.position.2 < 5
    · rw [if_pos hlt]
      exact ⟨fun _ => ⟨hd, hlt⟩, fun _ => rfl⟩
    · rw [if_neg hlt, h]
      constructor
      · intro hcontra
        exact absurd hcontra (by decide)
      · rintro ⟨-, hcontra⟩
        exact absurd hcontra hlt
  · rw [if_neg hd]
    show s.game_state = GameStates.GameOver ↔ _
    rw [h]
    constructor
    · intro hcontra
      exact absurd hcontra (by decide)
    · rintro ⟨hcontra, -⟩
      exact absurd hcontra hd

/-- Claim C8 witness: the amended statement at the initial session (no
gravity due, so nothing lands and no transition happens). -/
theorem claim_C8_gameover_amended_witness :
    (update true false 2 GameState.new).game_state = GameStates.GameOver ↔
      ((resolvedBlock false GameState.new).down = true
        ∧ (resolvedBlock false GameState.new).position.2 < 5) :=
  claim_C8_gameover_amended GameState.new false 2 rfl

/-- Claim C10: on any `GameOn` update whose resolved block has landed —
including the cycles where the game-over threshold is met — the session
still replaces the active piece with a freshly constructed piece at the
spawn coordinate, still runs full-row clearing on the stamped grid, and
still adds the returned cleared-row count to the score. -/
theorem claim_C10_landing_cycle (s : GameState) (gravityDue : Bool) (newType : Nat)
    (h : s.game_state = GameStates.GameOn)
    (hd : (resolvedBlock gravityDue s).down = true) :
    (update true gravityDue newType s).block = Block.new (START_X, START_Y) newType
    ∧ (update true gravityDue newType s).tile_map
        = (check_full_rows (markedMap gravityDue s)).1
    ∧ (update true gravityDue newType s).points
        = s.points + (check_full_rows (markedMap gravityDue s)).2 := by
  rw [update_gameOn gravityDue newType s h]
  unfold updateGameOnBranch
  revert hd
  generalize resolvedBlock gravityDue s = B
  generalize check_full_rows (markedMap gravityDue s) = P
  intro hd
  rw [if_pos hd]
  refine ⟨rfl, rfl, ?_⟩
  show (if 0 < P.2 then s.points + P.2 else s.points) = s.points + P.2
  by_cases hp : 0 < P.2
  · rw [if_pos hp]
  · rw [if_neg hp]
    omega

/-- Claim C10 witness: the landing-cycle statement at the pre-landing
session, where the piece lands on the bottom wall this update. -/
theorem claim_C10_landing_cycle_witness :
    (update true true 3 landingState).block = Block.new (START_X, START_Y) 3
    ∧ (update true true 3 landingState).tile_map
        = (check_full_rows (markedMap true landingState)).1
    ∧ (update true true 3 landingState).points
        = landingState.points + (check_full_rows (markedMap true landingState)).2 :=
  claim_C10_landing_cycle landingState true 3 rfl (by decide)

/-- Claim C7 (code bug): the border is not invariant.  From the initial
session, an update, four Left presses, an update, one Right press, one
rotation and one more update — all ordinary play inputs — turn the wall
cell `(0, 4)` from the wall id 8 into empty 0: the last update's erase
step uses the newly rotated footprint at the stale `previous_position`
and wipes a wall cell. -/
theorem claim_C7_border_broken :
    GameState.new.tile_map.cells 0 4 = 8
    ∧ eraseRun5.tile_map.cells 0 4 = 0 := by
  refine ⟨by decide, by decide⟩

end Jetris
